import Mathlib

/-!
# Verification of the country-inference and English-speaker classification engine

Shallow embedding of `country_matching.py` and `add_english_labels.py`
(the Country Resolver and Label Assignment & Consistency Engine of the
iclr-analysis repository), together with theorems settling the frozen
claims about them.

Modelling conventions:
* Python `str` is Lean `String`; Python string primitives (`lower`,
  `strip`, `split`, `startswith`, substring `in`) are re-implemented
  structurally over `List Char` so every definition evaluates in the
  kernel.  The ASCII behaviour of the Python primitives is modelled.
* Python `dict` (insertion-ordered, unique keys) is an association list
  `List (String × String)`; lookup is `List.lookup`, iteration is list
  order.
* Python `set` of strings is a duplicate-free `List String` in insertion
  order (`insertCode` adds an element only when absent).  All claims
  about set contents are order-independent.
* pandas missing values (`NaN`/`None`) are `Option.none`.
* Fallible code is `Except Unit` — `.error ()` marks an uncaught Python
  exception.
* Python floats appearing as stored label values are modelled as exact
  rationals (`Rat`) plus explicit NaN and ±infinity markers.  The full
  raw cell domain (`RawLabelCell`) includes the ±infinity cells on which
  the source's `clean_label` raises an uncaught `OverflowError` inside
  `int(...)` and aborts the batch; the batch layer operates on the
  completed-pass fragment (`LabelVal`), related to the raw domain by
  `toLabelVal` and `cleanedLabel_agrees`.
-/

/-! ## Python string primitives (ASCII model) -/

/-- Python `str.lower` (ASCII model). -/
def pyLower (s : String) : String :=
  String.mk (s.data.map Char.toLower)

/-- Python `str.strip` (default whitespace strip). -/
def pyStrip (s : String) : String :=
  String.mk (((s.data.dropWhile Char.isWhitespace).reverse.dropWhile Char.isWhitespace).reverse)

/-- Python `str.startswith`. -/
def pyStartsWith (s pre : String) : Bool :=
  pre.data.isPrefixOf s.data

/-- Python `str.split(sep)` for a one-character separator, on char lists. -/
def splitOnChar (sep : Char) : List Char → List (List Char)
  | [] => [[]]
  | c :: cs =>
      let r := splitOnChar sep cs
      if c = sep then [] :: r
      else
        match r with
        | [] => [[c]]
        | g :: gs => (c :: g) :: gs

/-- Python substring test `needle in hay` on char lists. -/
def containsSub (hay needle : List Char) : Bool :=
  needle.isPrefixOf hay ||
    match hay with
    | [] => false
    | _ :: t => containsSub t needle

/-- Python string `<=` (code-point lexicographic), used to model `sorted`. -/
def lexLe : List Char → List Char → Bool
  | [], _ => true
  | _ :: _, [] => false
  | a :: as, b :: bs =>
      if a.toNat < b.toNat then true
      else if b.toNat < a.toNat then false
      else lexLe as bs

/-- Insertion step of insertion sort by `lexLe`. -/
def insertSorted (s : String) : List String → List String
  | [] => [s]
  | x :: xs => if lexLe s.data x.data then s :: x :: xs else x :: insertSorted s xs

/-- Python `sorted` on a list of strings (insertion sort, code-point order). -/
def sortStrings (l : List String) : List String :=
  l.foldr insertSorted []

/-- Python `'; '.join`. -/
def joinSemi : List String → String
  | [] => ""
  | [x] => x
  | x :: xs => x ++ "; " ++ joinSemi xs

/-- If `p` is a prefix of the list, return the remainder. -/
def stripPrefixChars : List Char → List Char → Option (List Char)
  | [], l => some l
  | _ :: _, [] => none
  | p :: ps, c :: cs => if c = p then stripPrefixChars ps cs else none

/-- Fuel-driven core of Python `str.replace(pat, "")` for a nonempty
pattern: delete non-overlapping occurrences left to right. -/
def removeAllFuel (p : List Char) : Nat → List Char → List Char
  | 0, l => l
  | _ + 1, [] => []
  | fuel + 1, c :: cs =>
      match stripPrefixChars p (c :: cs) with
      | some rest => removeAllFuel p fuel rest
      | none => c :: removeAllFuel p fuel cs

/-- Python `s.replace(pat, "")` (all occurrences removed). -/
def pyRemoveAll (s pat : String) : String :=
  String.mk (removeAllFuel pat.data s.data.length s.data)

/-- Collapse every maximal run of whitespace into a single space
(`re.sub(r"\s+", " ", ...)`). -/
def collapseWs (l : List Char) : List Char :=
  l.foldr
    (fun c acc =>
      if c.isWhitespace then
        match acc with
        | ' ' :: _ => acc
        | _ => ' ' :: acc
      else c :: acc)
    []

/-! ## `country_matching.py`: constants -/

/-- `COMMON_EMAIL_DOMAINS` from `country_matching.py`. -/
def COMMON_EMAIL_DOMAINS : List String :=
  ["gmail.com", "yahoo.com", "hotmail.com", "outlook.com", "icloud.com",
   "aol.com", "live.com", "msn.com", "protonmail.com", "yandex.com",
   "mail.ru", "qq.com", "163.com", "sina.com", "sohu.com"]

/-- `TLD_TO_COUNTRY` from `country_matching.py` (insertion order kept). -/
def TLD_TO_COUNTRY : List (String × String) :=
  [(".cn", "CN"), (".in", "IN"), (".uk", "GB"), (".ca", "CA"), (".au", "AU"),
   (".de", "DE"), (".fr", "FR"), (".jp", "JP"), (".kr", "KR"), (".sg", "SG"),
   (".hk", "HK"), (".tw", "TW"), (".my", "MY"), (".th", "TH"), (".ph", "PH"),
   (".id", "ID"), (".vn", "VN"), (".bd", "BD"), (".pk", "PK"), (".lk", "LK"),
   (".np", "NP"), (".mm", "MM"), (".kh", "KH"), (".la", "LA"), (".bn", "BN"),
   (".mx", "MX"), (".br", "BR"), (".ar", "AR"), (".cl", "CL"), (".co", "CO"),
   (".pe", "PE"), (".ve", "VE"), (".ec", "EC"), (".uy", "UY"), (".py", "PY"),
   (".bo", "BO"), (".za", "ZA"), (".ng", "NG"), (".ke", "KE"), (".eg", "EG"),
   (".ma", "MA"), (".tn", "TN"), (".dz", "DZ"), (".ru", "RU"), (".ua", "UA"),
   (".by", "BY"), (".kz", "KZ"), (".uz", "UZ"), (".kg", "KG"), (".tj", "TJ"),
   (".tm", "TM"), (".af", "AF"), (".ir", "IR"), (".iq", "IQ"), (".sy", "SY"),
   (".lb", "LB"), (".jo", "JO"), (".il", "IL"), (".ps", "PS"), (".sa", "SA"),
   (".ae", "AE"), (".qa", "QA"), (".kw", "KW"), (".bh", "BH"), (".om", "OM"),
   (".ye", "YE"), (".tr", "TR"), (".cy", "CY"), (".gr", "GR"), (".bg", "BG"),
   (".ro", "RO"), (".md", "MD"), (".hu", "HU"), (".sk", "SK"), (".cz", "CZ"),
   (".pl", "PL"), (".lt", "LT"), (".lv", "LV"), (".ee", "EE"), (".fi", "FI"),
   (".se", "SE"), (".no", "NO"), (".dk", "DK"), (".is", "IS"), (".ie", "IE"),
   (".pt", "PT"), (".es", "ES"), (".it", "IT"), (".ch", "CH"), (".at", "AT"),
   (".be", "BE"), (".nl", "NL"), (".lu", "LU"), (".nz", "NZ")]

/-- The stop-word list of `normalize_institution_name` (removal order kept). -/
def words_to_remove : List String :=
  ["university", "college", "institute", "school", "of", "the", "and",
   "technology", "science", "engineering", "medical", "state", "national",
   "international", "private", "public", "community"]

/-! ## `normalize_institution_name` -/

/-- Keep chars matched by the regex class `[\w\s]` (ASCII model of
Python `\w` = alphanumeric or underscore, `\s` = whitespace). -/
def isWordOrSpace (c : Char) : Bool :=
  c.isAlphanum || c = '_' || c.isWhitespace

/-- `normalize_institution_name` from `country_matching.py`: lowercase,
remove each stop word as a plain substring, drop punctuation
(`re.sub(r"[^\w\s]", "")`), collapse whitespace, strip. -/
def normalize_institution_name (name : String) : String :=
  let lowered := pyLower name
  let noStop := words_to_remove.foldl (fun s w => pyRemoveAll s w) lowered
  let noPunct := noStop.data.filter isWordOrSpace
  pyStrip (String.mk (collapseWs noPunct))

/-! ## JSON values and `extract_institutions_from_education`

The source calls `json.loads` and then iterates over the decoded value.
The decoder itself is not re-implemented: the education field is
modelled as the raw string *paired with the outcome of decoding it*
(`none` = `json.JSONDecodeError`/`ValueError`).  JSON numbers are
modelled as integers; their exact numeric type is irrelevant to every
claim (only Python truthiness of the value matters). -/

/-- Decoded JSON values. -/
inductive Json where
  | null
  | bool (b : Bool)
  | num (n : Int)
  | str (s : String)
  | arr (xs : List Json)
  | obj (fields : List (String × Json))

/-- Python truthiness of a decoded JSON value. -/
def pyTruthy : Json → Bool
  | .null => false
  | .bool b => b
  | .num n => n != 0
  | .str s => !s.data.isEmpty
  | .arr xs => !xs.isEmpty
  | .obj fs => !fs.isEmpty

/-- `entry.get('institution', '')` for a JSON object. -/
def getInstitutionField (fields : List (String × Json)) : Json :=
  (fields.lookup "institution").getD (.str "")

/-- The `for entry in education_data` loop body of
`extract_institutions_from_education`: append `entry.get('institution','')`
when truthy; a non-`dict` entry raises an uncaught `AttributeError`
(modelled as `.error ()`). -/
def institutionsLoop : List Json → Except Unit (List Json)
  | [] => .ok []
  | .obj fields :: rest =>
      match institutionsLoop rest with
      | .ok tail =>
          if pyTruthy (getInstitutionField fields) then
            .ok (getInstitutionField fields :: tail)
          else .ok tail
      | .error e => .error e
  | _ :: _ => .error ()

/-- Iterating the decoded top-level value inside the `try` block:
an array iterates its entries; a string iterates its characters and a
`dict` iterates its keys, so any nonempty one hits `entry.get` on a
non-`dict` and raises `AttributeError` (uncaught); any other value
raises `TypeError` at the `for`, which IS caught and yields `[]`. -/
def iterateEducationData : Json → Except Unit (List Json)
  | .arr entries => institutionsLoop entries
  | .str s => if s.data.isEmpty then .ok [] else .error ()
  | .obj fields => if fields.isEmpty then .ok [] else .error ()
  | _ => .ok []

/-- The possible values of the `education_background` field reaching
`extract_institutions_from_education`: Python `None`, a float `NaN`, or
a string together with the outcome of `json.loads` on it (non-NaN
floats and other objects are passed through `str(...)` first, so they
reduce to the string case). -/
inductive EduInput where
  | pyNone
  | pyNanFloat
  | pyStr (s : String) (decoded : Option Json)

/-- `extract_institutions_from_education` from `country_matching.py`.
`.error ()` marks an uncaught exception escaping the function;
`.ok l` returns the appended institution values. -/
def extract_institutions_from_education : EduInput → Except Unit (List Json)
  | .pyNone => .ok []
  | .pyNanFloat => .ok []
  | .pyStr s decoded =>
      if s.data.isEmpty || pyStrip s = "" then .ok []
      else
        match decoded with
        | none => .ok []
        | some j => iterateEducationData j

/-! ## `filter_email_domains` -/

/-- The filtering loop of `filter_email_domains`. -/
def filterDomainsLoop : List String → List String
  | [] => []
  | d :: rest =>
      if d ≠ "" && !(COMMON_EMAIL_DOMAINS.contains (pyLower d)) then
        pyLower d :: filterDomainsLoop rest
      else filterDomainsLoop rest

/-- `filter_email_domains` from `country_matching.py`: split on `';'`,
strip each part, drop empties and common providers (case-insensitive),
return the survivors lowercased, in order. -/
def filter_email_domains (domains_str : String) : List String :=
  if domains_str = "" || pyStrip domains_str = "" then []
  else
    filterDomainsLoop
      ((splitOnChar ';' domains_str.data).map (fun g => pyStrip (String.mk g)))

/-! ## `infer_country_from_tld` -/

/-- `infer_country_from_tld` from `country_matching.py`. -/
def infer_country_from_tld (domain : String) : Option String :=
  let parts := splitOnChar '.' domain.data
  if 2 ≤ parts.length then
    match parts.getLast? with
    | some last => TLD_TO_COUNTRY.lookup ("." ++ String.mk last)
    | none => none
  else none

/-! ## `find_country_codes` -/

/-- The lookup structures produced by `load_universities_data`
(association lists standing for the insertion-ordered Python dicts). -/
structure UnivData where
  domain_to_country : List (String × String)
  institution_to_country : List (String × String)
  code_to_country_name : List (String × String)

/-- Python `set.add`: append the element when absent (the list models a
set in insertion order). -/
def insertCode (l : List String) (c : String) : List String :=
  if l.contains c then l else l ++ [c]

/-- The acceptance test of the fuzzy institution matcher:
`(normalized_name in uni_name and len(normalized_name) >= 4) or
 (uni_name in normalized_name and len(uni_name) >= 4)`. -/
def fuzzyAccept (n k : String) : Bool :=
  (containsSub k.data n.data && 4 ≤ n.length) ||
  (containsSub n.data k.data && 4 ≤ k.length)

/-- The inner `for uni_name, country_code in ...items()` scan of
`find_country_codes`: skip empty/short keys, stop at the first accepted
match (`break`). -/
def fuzzyScan (n : String) : List (String × String) → Option String
  | [] => none
  | (k, code) :: rest =>
      if k = "" || k.length < 3 then fuzzyScan n rest
      else if fuzzyAccept n k then some code
      else fuzzyScan n rest

/-- One iteration of the institution loop of `find_country_codes`:
normalize, skip empties, exact dict hit (with `continue`), else fuzzy
scan guarded by `len(normalized_name) >= 3`. -/
def instStep (table : List (String × String)) (acc : List String) (institution : String) :
    List String :=
  let n := normalize_institution_name institution
  if n = "" then acc
  else
    match table.lookup n with
    | some code => insertCode acc code
    | none =>
        if 3 ≤ n.length then
          match fuzzyScan n table with
          | some code => insertCode acc code
          | none => acc
        else acc

/-- One iteration of the email-domain loop of `find_country_codes`:
exact dict hit, else TLD inference. -/
def domainStep (table : List (String × String)) (acc : List String) (domain : String) :
    List String :=
  match table.lookup domain with
  | some code => insertCode acc code
  | none =>
      match infer_country_from_tld domain with
      | some c => insertCode acc c
      | none => acc

/-- `find_country_codes` from `country_matching.py`. -/
def find_country_codes (ud : UnivData) (institutions email_domains : List String) :
    List String :=
  email_domains.foldl (domainStep ud.domain_to_country)
    (institutions.foldl (instStep ud.institution_to_country) [])

/-! ## `add_english_labels.py`: `clean_label` and the stored label column -/

/-- Python `int(x)` on a finite float: truncation toward zero. -/
def pyTrunc (q : Rat) : Int :=
  if 0 ≤ q.num then ((q.num.natAbs / q.den : Nat) : Int)
  else -((q.num.natAbs / q.den : Nat) : Int)

/-- Outcome of Python `float(s)` on a string, when it does not raise a
`ValueError`: `NaN`, ±infinity (from `"inf"`, `"-Infinity"`, `"1e999"`,
and the like), or a finite value (finite floats are modelled as exact
rationals). -/
inductive RawFloatOutcome where
  | nan
  | infinite
  | finite (q : Rat)

/-- A stored `english_speaker` cell exactly as `clean_label` can
receive it, with no error path collapsed: `null` is Python `None` or a
float `NaN` (both satisfy `pd.isna`); `num q` is a finite numeric
value; `infFloat` is a stored ±infinity float (`pd.isna` is false on
it); `strv s p` is a string `s` together with the outcome of
`float(s)` (`none` = `ValueError`); `obj` is any other object
(`float(...)` raises `TypeError`). -/
inductive RawLabelCell where
  | null
  | num (q : Rat)
  | infFloat
  | strv (s : String) (parsed : Option RawFloatOutcome)
  | obj

/-- `clean_label` from `add_english_labels.py`, on the full raw cell
domain.  `.ok none` models the Python `None` return (which pandas
stores as `NaN`); `.error ()` models the uncaught `OverflowError`
raised by `int(float(...))` on a ±infinity value — `OverflowError` is
not in the `except (ValueError, TypeError)` clause, so the cleaning
pass at line 106 aborts the whole batch there. -/
def clean_label : RawLabelCell → Except Unit (Option Int)
  | .null => .ok none
  | .num q =>
      let i := pyTrunc q
      .ok (if i = 0 ∨ i = 1 ∨ i = -1 then some i else none)
  | .infFloat => .error ()
  | .strv _ parsed =>
      match parsed with
      | none => .ok none
      | some .nan => .ok none
      | some .infinite => .error ()
      | some (.finite q) =>
          let i := pyTrunc q
          .ok (if i = 0 ∨ i = 1 ∨ i = -1 then some i else none)
  | .obj => .ok none

/-- The `float(s)` outcomes on which the cleaning step completes
without raising: the ±infinity outcome of `RawFloatOutcome` makes
`clean_label` raise instead. -/
inductive FloatOutcome where
  | nan
  | finite (q : Rat)

/-- The stored label cells on which `clean_label` completes without
raising: the fragment of `RawLabelCell` without the two ±infinity
cells.  The batch layer (`Row`, `processBatch`) operates on this type,
because a batch containing a ±infinity cell aborts during the cleaning
pass and never reaches the per-row loop; `toLabelVal` embeds the
fragment into the raw domain and `cleanedLabel_agrees` proves the two
cleaning semantics coincide on it. -/
inductive LabelVal where
  | null
  | num (q : Rat)
  | strv (s : String) (parsed : Option FloatOutcome)
  | obj

/-- The value the cleaning pass (line 106) leaves in the cleaned
`english_speaker` column for a cell it completes on (`none` is the
Python `None` return, stored as `NaN`). -/
def cleanedLabel : LabelVal → Option Int
  | .null => none
  | .num q =>
      let i := pyTrunc q
      if i = 0 ∨ i = 1 ∨ i = -1 then some i else none
  | .strv _ parsed =>
      match parsed with
      | none => none
      | some .nan => none
      | some (.finite q) =>
          let i := pyTrunc q
          if i = 0 ∨ i = 1 ∨ i = -1 then some i else none
  | .obj => none

/-- The completed-pass fragment inside the raw domain: `none` exactly
on the two ±infinity cells, on which `clean_label` raises. -/
def toLabelVal : RawLabelCell → Option LabelVal
  | .null => some .null
  | .num q => some (.num q)
  | .infFloat => none
  | .strv s none => some (.strv s none)
  | .strv s (some .nan) => some (.strv s (some .nan))
  | .strv _ (some .infinite) => none
  | .strv s (some (.finite q)) => some (.strv s (some (.finite q)))
  | .obj => some .obj

/-- The `valid_mask` test of `process_author_profiles` on one cleaned
cell: `notna` and `isin([0, 1])`. -/
def labelPreserved (v : LabelVal) : Bool :=
  cleanedLabel v == some 0 || cleanedLabel v == some 1

/-! ## `process_author_profiles`: per-row decision procedure -/

/-- One author row as the per-row loop sees it.  `institutions` and
`email_domains` are the already-derived signal columns
(`institutions_from_education` split on `';'` and stripped, and
`filtered_email_domains` likewise); `education_countries` and
`english_speaker` are the stored values from a prior run (absent cells
are `none` / `.null`). -/
structure Row where
  author_name : String
  english_speaker : LabelVal
  education_countries : Option String
  institutions : List String
  email_domains : List String
  current_country : Option String

/-- The `has_country_data` test on a stored `education_countries` cell
(lines 126-131): non-`NaN`, and after `strip` non-empty, not `'nan'`,
not `'None'`, and not starting with a left brace. -/
def hasCountryData : Option String → Bool
  | none => false
  | some s =>
      let t := pyStrip s
      t ≠ "" && t ≠ "nan" && t ≠ "None" && !(pyStartsWith t "\x7b")

/-- The `current_country` fallback parse (lines 170-177): strip, treat
empty/`'nan'`/`'none'` (case-insensitively) as absent. -/
def parseCurrentCountry : Option String → Option String
  | none => none
  | some raw =>
      let s := pyStrip raw
      if s ≠ "" && pyLower s ≠ "nan" && pyLower s ≠ "none" then some s else none

/-- The step-3 safety net (lines 163-167): add a TLD-inferred code for
each remaining domain. -/
def addTldCodes (codes : List String) (domains : List String) : List String :=
  domains.foldl
    (fun acc d =>
      match infer_country_from_tld d with
      | some c => insertCode acc c
      | none => acc)
    codes

/-- The resolver result plus the step-3 safety net: the country set just
before the `current_country` merge (lines 160-167). -/
def preMergeCodes (ud : UnivData) (r : Row) : List String :=
  if (find_country_codes ud r.institutions r.email_domains).isEmpty &&
      !r.email_domains.isEmpty then
    addTldCodes (find_country_codes ud r.institutions r.email_domains) r.email_domains
  else find_country_codes ud r.institutions r.email_domains

/-- The country set after merging in `current_country` (lines 181-184;
both branches amount to adding the value when it is not yet a member). -/
def resolvedCodes (ud : UnivData) (r : Row) : List String :=
  match parseCurrentCountry r.current_country with
  | some c => insertCode (preMergeCodes ud r) c
  | none => preMergeCodes ud r

/-- The English-speaker flag loop (lines 202-207): `0` unless some code
maps to a country display name whose lowercased TOEFL entry is exactly
`"Exempt"`, with an early `break` on the first hit. -/
def computeFlagLoop (ud : UnivData) (toefl : List (String × String)) : List String → Int
  | [] => 0
  | c :: rest =>
      let name := (ud.code_to_country_name.lookup c).getD ""
      if name ≠ "" && (toefl.lookup (pyLower name)).getD "" = "Exempt" then 1
      else computeFlagLoop ud toefl rest

/-- The fresh-computation path for an author without a preserved label
(lines 152-209): resolver, TLD safety net, `current_country` merge,
no-data bail-out to `(none, -1)`, else sorted joined country string and
the TOEFL flag. -/
def computePath (ud : UnivData) (toefl : List (String × String)) (r : Row) :
    Option String × Int :=
  if (preMergeCodes ud r).isEmpty && (parseCurrentCountry r.current_country).isNone then
    (none, -1)
  else if (resolvedCodes ud r).isEmpty then (none, -1)
  else
    (some (joinSemi (sortStrings (resolvedCodes ud r))),
     computeFlagLoop ud toefl (resolvedCodes ud r))

/-- The re-validation of a stored (already cleaned) label inside the
preserved path (lines 133-142): `int(float(...))`, membership in
`{0, 1, -1}`, exceptions and `NaN` to `-1`. -/
def revalidatedLabel (v : LabelVal) : Int :=
  match cleanedLabel v with
  | some i => if i = 0 ∨ i = 1 ∨ i = -1 then i else -1
  | none => -1

/-- The preserved-label path (lines 124-150): re-validate the stored
(already cleaned) label, keep both fields only when the stored country
cell passes `has_country_data`, else force `(none, -1)`. -/
def preservedPath (r : Row) : Option String × Int :=
  if hasCountryData r.education_countries then
    (r.education_countries, revalidatedLabel r.english_speaker)
  else (none, -1)

/-- One iteration of the per-author loop: `preserved` says whether the
author's name is in `authors_with_labels`. -/
def processRow (ud : UnivData) (toefl : List (String × String)) (preserved : Bool)
    (r : Row) : Option String × Int :=
  if preserved then preservedPath r else computePath ud toefl r

/-! ## `process_author_profiles`: batch pass and final sweep -/

/-- The `no_country_mask` predicate of the final validation (line 217):
absent, empty, or whitespace-only country cell. -/
def noCountry : Option String → Bool
  | none => true
  | some s => s = "" || pyStrip s = ""

/-- The repair applied to masked rows (lines 221-222). -/
def sweepFix (p : Option String × Int) : Option String × Int :=
  if noCountry p.1 then (none, -1) else p

/-- The final validation sweep (lines 216-222): the repair runs only
when at least one masked row has a label other than `-1`. -/
def finalSweep (l : List (Option String × Int)) : List (Option String × Int) :=
  if 0 < (l.countP fun p => noCountry p.1 && p.2 != -1) then l.map sweepFix else l

/-- `authors_with_labels` (lines 108-111): names of rows whose cleaned
stored label is 0 or 1. -/
def authorsWithLabels (rows : List Row) : List String :=
  (rows.filter fun r => labelPreserved r.english_speaker).map Row.author_name

/-- One full batch pass of `process_author_profiles` over the
already-extracted signal columns: per-row decision procedure followed by
the final validation sweep.  The result pairs are the output
`(education_countries, english_speaker)` columns. -/
def processBatch (ud : UnivData) (toefl : List (String × String)) (rows : List Row) :
    List (Option String × Int) :=
  finalSweep
    (rows.map fun r =>
      processRow ud toefl ((authorsWithLabels rows).contains r.author_name) r)

/-- Feed one output pair back as the stored fields of the same row, as
re-reading the engine's saved CSV does before a second pass: label
values round-trip as numeric cells, signals are re-derived identically. -/
def rerunRow (r : Row) (out : Option String × Int) : Row :=
  { r with education_countries := out.1, english_speaker := .num ((out.2 : Int) : Rat) }

/-! ## General helper lemmas -/

/-- Splitting on a character that does not occur returns the whole list. -/
theorem splitOnChar_not_mem {sep : Char} {l : List Char} (h : sep ∉ l) :
    splitOnChar sep l = [l] := by
  induction l with
  | nil => rfl
  | cons c cs ih =>
      have hc : ¬c = sep := fun hcs => h (hcs ▸ List.mem_cons_self c cs)
      have hcs : sep ∉ cs := fun hm => h (List.mem_cons_of_mem c hm)
      simp [splitOnChar, hc, ih hcs]

/-- A whitespace-only string strips to empty, elementwise. -/
theorem mem_of_pyStrip_empty {s : String} (h : pyStrip s = "") :
    ∀ c ∈ s.data, c.isWhitespace = true := by
  intro c hc
  have hdata :
      ((s.data.dropWhile Char.isWhitespace).reverse.dropWhile Char.isWhitespace).reverse = [] := by
    have h2 := congrArg String.data h
    simpa [pyStrip] using h2
  rw [List.reverse_eq_nil_iff, List.dropWhile_eq_nil_iff] at hdata
  rcases List.mem_append.mp
      (by rw [List.takeWhile_append_dropWhile]; exact hc :
        c ∈ s.data.takeWhile Char.isWhitespace ++ s.data.dropWhile Char.isWhitespace) with
    hm | hm
  · exact List.mem_takeWhile_imp hm
  · exact hdata c (List.mem_reverse.mpr hm)

theorem insertCode_ne_nil (l : List String) (c : String) : insertCode l c ≠ [] := by
  unfold insertCode
  split
  · next hmem =>
      exact List.ne_nil_of_mem (List.elem_iff.mp hmem)
  · simp


/-! ## Claim C9: `filter_email_domains` lowercases and filters in order -/

/-- The filtering loop equals filter-then-map-lowercase. -/
theorem filterDomainsLoop_eq (l : List String) :
    filterDomainsLoop l =
      (l.filter fun d => d ≠ "" && !(COMMON_EMAIL_DOMAINS.contains (pyLower d))).map pyLower := by
  induction l with
  | nil => rfl
  | cons d rest ih =>
      simp only [filterDomainsLoop, List.filter_cons]
      by_cases h : (d ≠ "" && !(COMMON_EMAIL_DOMAINS.contains (pyLower d))) = true
      · rw [if_pos h, if_pos h, List.map_cons, ih]
      · rw [if_neg h, if_neg h, ih]

/-- C9: every domain returned by `filter_email_domains` is lowercased,
even when the input was mixed-case: the result equals the split-and-
stripped input sequence with generic consumer-mail providers removed by
case-insensitive membership and every retained domain mapped to
lowercase, in the original order. -/
theorem filter_email_domains_spec (s : String) :
    filter_email_domains s =
      (((splitOnChar ';' s.data).map fun g => pyStrip (String.mk g)).filter
          (fun d => d ≠ "" && !(COMMON_EMAIL_DOMAINS.contains (pyLower d)))).map pyLower := by
  unfold filter_email_domains
  split
  · next hempty =>
      rcases Bool.or_eq_true _ _ |>.mp hempty with h0 | h0
      · -- s is the empty string
        have hs : s = "" := by simpa using h0
        subst hs; rfl
      · -- s strips to empty: all characters are whitespace, so no ';'
        have hstrip : pyStrip s = "" := by simpa using h0
        have hall := mem_of_pyStrip_empty hstrip
        have hsep : ';' ∉ s.data := fun hm => by simpa using hall ';' hm
        rw [splitOnChar_not_mem hsep]
        have hmk : String.mk s.data = s := rfl
        simp [hmk, hstrip]
  · exact filterDomainsLoop_eq _

/-! ## Claim C10: dotless domains never contribute via TLD inference -/

/-- C10: `infer_country_from_tld` returns `none` for every domain string
containing no `'.'` separator, so in the domain loop of
`find_country_codes` a dotless domain contributes a country code only
through an exact hit in the domain table, never through TLD inference. -/
theorem infer_country_from_tld_dotless (d : String) (h : '.' ∉ d.data) :
    infer_country_from_tld d = none ∧
      ∀ (table : List (String × String)) (acc : List String),
        table.lookup d = none → domainStep table acc d = acc := by
  have hsplit : splitOnChar '.' d.data = [d.data] := splitOnChar_not_mem h
  have hinfer : infer_country_from_tld d = none := by
    unfold infer_country_from_tld
    rw [hsplit]
    simp
  refine ⟨hinfer, fun table acc hl => ?_⟩
  unfold domainStep
  rw [hl, hinfer]

/-- Witness for C10 at the dotless domain `"localhost"`. -/
theorem infer_country_from_tld_dotless_witness :
    infer_country_from_tld "localhost" = none ∧ domainStep [] ["CN"] "localhost" = ["CN"] :=
  ⟨(infer_country_from_tld_dotless "localhost" (by decide)).1,
   (infer_country_from_tld_dotless "localhost" (by decide)).2 [] ["CN"] rfl⟩

/-! ## Claim C5: institution matching precedence in `find_country_codes` -/

/-- The fuzzy scan is a first-match search: skip keys shorter than 3,
return the code of the first key passing `fuzzyAccept`. -/
theorem fuzzyScan_eq_find (n : String) (table : List (String × String)) :
    fuzzyScan n table =
      (table.find? fun kc => 3 ≤ kc.1.length && fuzzyAccept n kc.1).map Prod.snd := by
  induction table with
  | nil => rfl
  | cons kc rest ih =>
      obtain ⟨k, code⟩ := kc
      by_cases hshort : (k = "" || k.length < 3) = true
      · have hlen : ¬3 ≤ k.length := by
          rcases Bool.or_eq_true _ _ |>.mp hshort with h0 | h0
          · have hk : k = "" := by simpa using h0
            subst hk; decide
          · have hk : k.length < 3 := by simpa using h0
            omega
        have hp : ((3 ≤ k.length : Bool) && fuzzyAccept n k) = false := by
          simp [hlen]
        simp [fuzzyScan, hshort, hp, ih]
      · have hlen : 3 ≤ k.length := by
          simp only [Bool.or_eq_true, decide_eq_true_eq, not_or] at hshort
          omega
        by_cases hacc : fuzzyAccept n k = true
        · simp [fuzzyScan, hshort, hacc, hlen]
        · simp [fuzzyScan, hshort, hacc, hlen, ih]

/-- C5: per candidate institution, an exact hit on the normalized name
takes that country code and skips fuzzy matching entirely; fuzzy
matching runs only when the normalized name has length at least 3 and
there was no exact hit, skips reference keys of length below 3, accepts
a pair exactly when one string contains the other with the contained
string of length at least 4 (`fuzzyAccept`), and stops at the first
accepted match. -/
theorem institution_matching_spec (table : List (String × String)) (acc : List String)
    (institution : String) :
    instStep table acc institution =
      (let n := normalize_institution_name institution
       if n = "" then acc
       else
         match table.lookup n with
         | some code => insertCode acc code
         | none =>
             if 3 ≤ n.length then
               match table.find? fun kc => 3 ≤ kc.1.length && fuzzyAccept n kc.1 with
               | some kc => insertCode acc kc.2
               | none => acc
             else acc) := by
  show instStep table acc institution = _
  by_cases h0 : normalize_institution_name institution = ""
  · simp [instStep, h0]
  · cases hl : table.lookup (normalize_institution_name institution) with
    | some code => simp [instStep, h0, hl]
    | none =>
        by_cases h3 : 3 ≤ (normalize_institution_name institution).length
        · simp only [instStep, h0, hl, h3,
            fuzzyScan_eq_find, if_neg h0, if_pos h3]
          cases table.find? fun kc =>
              3 ≤ kc.1.length && fuzzyAccept (normalize_institution_name institution) kc.1 <;>
            simp
        · simp [instStep, h0, hl, h3]

/-! ## Claim C8: the step-3 TLD pass is redundant -/

/-- If the domain fold of `find_country_codes` ends empty, it started
empty and every domain missed both the table and TLD inference. -/
theorem domainFold_eq_nil {table : List (String × String)} {domains : List String}
    {init : List String} (h : domains.foldl (domainStep table) init = []) :
    init = [] ∧ ∀ d ∈ domains, table.lookup d = none ∧ infer_country_from_tld d = none := by
  induction domains generalizing init with
  | nil => exact ⟨h, by simp⟩
  | cons d ds ih =>
      obtain ⟨hstep, hrest⟩ := ih (by simpa using h)
      have hd : table.lookup d = none ∧ infer_country_from_tld d = none ∧ init = [] := by
        unfold domainStep at hstep
        cases hl : table.lookup d with
        | some code => rw [hl] at hstep; exact absurd hstep (insertCode_ne_nil _ _)
        | none =>
            rw [hl] at hstep
            cases hi : infer_country_from_tld d with
            | some c => rw [hi] at hstep; exact absurd hstep (insertCode_ne_nil _ _)
            | none => rw [hi] at hstep; exact ⟨rfl, rfl, hstep⟩
      refine ⟨hd.2.2, fun x hx => ?_⟩
      rcases List.mem_cons.mp hx with hx | hx
      · subst hx; exact ⟨hd.1, hd.2.1⟩
      · exact hrest x hx

/-- The step-3 loop starting from the empty set adds nothing when TLD
inference fails on every domain. -/
theorem addTldCodes_nil {domains : List String}
    (h : ∀ d ∈ domains, infer_country_from_tld d = none) :
    addTldCodes [] domains = [] := by
  induction domains with
  | nil => rfl
  | cons d ds ih =>
      unfold addTldCodes
      simp only [List.foldl_cons]
      rw [h d (List.mem_cons_self d ds)]
      exact ih (fun x hx => h x (List.mem_cons_of_mem _ hx))

/-- The pre-merge country set always equals the raw resolver result:
the step-3 safety net never adds a code. -/
theorem preMergeCodes_eq_find (ud : UnivData) (r : Row) :
    preMergeCodes ud r = find_country_codes ud r.institutions r.email_domains := by
  unfold preMergeCodes
  split
  · next hcond =>
      have hemp : find_country_codes ud r.institutions r.email_domains = [] :=
        List.isEmpty_iff.mp (Bool.and_elim_left hcond)
      have hinfer :=
        (domainFold_eq_nil (show r.email_domains.foldl (domainStep ud.domain_to_country)
            (r.institutions.foldl (instStep ud.institution_to_country) []) = [] from hemp)).2
      rw [hemp]
      exact addTldCodes_nil fun d hd => (hinfer d hd).2
  · rfl

/-- Spec-side variant: the resolved country set with the step-3 TLD
loop removed. -/
def resolvedCodesNoTld (ud : UnivData) (r : Row) : List String :=
  match parseCurrentCountry r.current_country with
  | some c => insertCode (find_country_codes ud r.institutions r.email_domains) c
  | none => find_country_codes ud r.institutions r.email_domains

/-- Spec-side variant: `computePath` with the step-3 TLD loop
(lines 163-167) removed. -/
def computePathNoTld (ud : UnivData) (toefl : List (String × String)) (r : Row) :
    Option String × Int :=
  if (find_country_codes ud r.institutions r.email_domains).isEmpty &&
      (parseCurrentCountry r.current_country).isNone then (none, -1)
  else if (resolvedCodesNoTld ud r).isEmpty then (none, -1)
  else
    (some (joinSemi (sortStrings (resolvedCodesNoTld ud r))),
     computeFlagLoop ud toefl (resolvedCodesNoTld ud r))

/-- Spec-side variant: the per-row step with the step-3 TLD loop
removed. -/
def processRowNoTld (ud : UnivData) (toefl : List (String × String)) (preserved : Bool)
    (r : Row) : Option String × Int :=
  if preserved then preservedPath r else computePathNoTld ud toefl r

/-- C8: the step-3 per-domain TLD inference pass is redundant: when
`find_country_codes` returns the empty set, the subsequent
`infer_country_from_tld` loop over the same domains adds no country
code, and the per-row pipeline with step 3 equals the pipeline without
it on every row. -/
theorem tld_pass_redundant (ud : UnivData) (insts doms : List String)
    (h : find_country_codes ud insts doms = []) :
    addTldCodes [] doms = [] ∧
      ∀ (toefl : List (String × String)) (preserved : Bool) (r : Row),
        processRow ud toefl preserved r = processRowNoTld ud toefl preserved r := by
  constructor
  · have hinfer :=
      (domainFold_eq_nil (show doms.foldl (domainStep ud.domain_to_country)
          (insts.foldl (instStep ud.institution_to_country) []) = [] from h)).2
    exact addTldCodes_nil fun d hd => (hinfer d hd).2
  · intro toefl preserved r
    unfold processRow processRowNoTld
    cases preserved
    · have hres : resolvedCodes ud r = resolvedCodesNoTld ud r := by
        unfold resolvedCodes resolvedCodesNoTld
        rw [preMergeCodes_eq_find]
      simp only [if_neg, Bool.false_eq_true, ite_false]
      unfold computePath computePathNoTld
      rw [preMergeCodes_eq_find, hres]
    · rfl

/-- An empty reference dataset, used by several concrete evaluations. -/
def udEmpty : UnivData := ⟨[], [], []⟩

/-- A row with one dotless institutional domain and no other signal. -/
def rowNoSignal : Row := ⟨"w8", .null, none, [], ["nodots"], none⟩

/-- Witness for C8 on a concrete resolver miss. -/
theorem tld_pass_redundant_witness :
    addTldCodes [] ["nodots"] = [] ∧
      processRow udEmpty [] false rowNoSignal = processRowNoTld udEmpty [] false rowNoSignal :=
  ⟨(tld_pass_redundant udEmpty [] ["nodots"] rfl).1,
   (tld_pass_redundant udEmpty [] ["nodots"] rfl).2 [] false rowNoSignal⟩

/-! ## Claim C4: `extract_institutions_from_education` safety -/

/-- Counterexample for C4 as stated: the education string `"[1]"`
decodes to an array containing a non-object entry, and the function
raises an uncaught `AttributeError` (`entry.get` on an `int`), instead
of returning the empty sequence. -/
theorem extract_institutions_cex :
    extract_institutions_from_education (.pyStr "[1]" (some (.arr [.num 1]))) = .error () :=
  rfl

/-- C4 (amended): the extractor returns the empty sequence and never
raises on null, NaN, empty/whitespace, or non-decodable input, and on
JSON that decodes to a non-iterable scalar (number, boolean, null); on
JSON that decodes to an array of objects it returns the `institution`
values with empty/falsy ones skipped, without raising.  (JSON decoding
to an array with a non-object entry raises an uncaught
`AttributeError`; see the counterexample.) -/
theorem extract_institutions_amended :
    (∀ s : String, extract_institutions_from_education (.pyStr s none) = .ok []) ∧
      extract_institutions_from_education .pyNone = .ok [] ∧
      extract_institutions_from_education .pyNanFloat = .ok [] ∧
      (∀ (s : String) (q : Int),
        extract_institutions_from_education (.pyStr s (some (.num q))) = .ok []) ∧
      (∀ (s : String) (b : Bool),
        extract_institutions_from_education (.pyStr s (some (.bool b))) = .ok []) ∧
      (∀ s : String, extract_institutions_from_education (.pyStr s (some .null)) = .ok []) ∧
      (∀ entries : List (List (String × Json)),
        iterateEducationData (.arr (entries.map Json.obj)) =
          .ok ((entries.map getInstitutionField).filter pyTruthy)) := by
  have hstr : ∀ (s : String) (p : Option Json),
      extract_institutions_from_education (.pyStr s p) =
        if s.data.isEmpty || pyStrip s = "" then .ok []
        else
          match p with
          | none => .ok []
          | some j => iterateEducationData j := fun s p => rfl
  refine ⟨fun s => ?_, rfl, rfl, fun s q => ?_, fun s b => ?_, fun s => ?_, fun entries => ?_⟩
  · rw [hstr]; split <;> rfl
  · rw [hstr]; split <;> rfl
  · rw [hstr]; split <;> rfl
  · rw [hstr]; split <;> rfl
  · show institutionsLoop (entries.map Json.obj) = _
    induction entries with
    | nil => rfl
    | cons fs rest ih =>
        simp only [List.map_cons, institutionsLoop, ih, List.filter_cons]
        by_cases ht : pyTruthy (getInstitutionField fs) = true
        · rw [if_pos ht, if_pos ht]
        · rw [if_neg ht, if_neg ht]

/-! ## Claim C7: the pre-pass label-cleaning step -/

/-- The numeric parse of the claim's wording, classified over the full
raw domain: no parse (`None`, NaN, a NaN-parsing string, an unparseable
string, or a non-numeric object), a ±infinity parse, or a finite
value. -/
inductive NumericParse where
  | noParse
  | infiniteParse
  | finiteParse (q : Rat)

/-- The spec-side numeric-parse classification of a raw stored cell. -/
def rawNumericValue : RawLabelCell → NumericParse
  | .null => .noParse
  | .num q => .finiteParse q
  | .infFloat => .infiniteParse
  | .strv _ none => .noParse
  | .strv _ (some .nan) => .noParse
  | .strv _ (some .infinite) => .infiniteParse
  | .strv _ (some (.finite q)) => .finiteParse q
  | .obj => .noParse

/-- The rational one half, built without normalization. -/
def halfRat : Rat := ⟨1, 2, by decide, Nat.coprime_one_left 2⟩

/-- Counterexample for C7 as stated: (i) a non-numeric stored value is
reset to `None` (absent), not to `-1`; (ii) the numeric value `0.5`,
which lies outside `{0, 1, -1}`, is not reset at all — it is truncated
to the valid label 0; (iii) a value parsing to ±infinity is not reset
either — `int(float(...))` raises an uncaught `OverflowError` there and
the cleaning pass aborts the batch. -/
theorem clean_label_cex :
    clean_label (.strv "abc" none) = .ok none ∧
      (Except.ok none : Except Unit (Option Int)) ≠ .ok (some (-1)) ∧
      clean_label (.num halfRat) = .ok (some 0) ∧
      clean_label (.strv "inf" (some .infinite)) = .error () := by
  refine ⟨rfl, fun h => Option.noConfusion (Except.ok.inj h), rfl, rfl⟩

/-- On cells where the cleaning completes, the raw semantics returns
exactly the cleaned-column value; outside the completed-pass fragment
it raises. -/
theorem cleanedLabel_agrees (c : RawLabelCell) :
    (∀ v, toLabelVal c = some v → clean_label c = .ok (cleanedLabel v)) ∧
      (toLabelVal c = none → clean_label c = .error ()) := by
  cases c with
  | null =>
      refine ⟨fun v hv => ?_, fun h => Option.noConfusion h⟩
      rw [show v = LabelVal.null from (Option.some.inj hv).symm]
      rfl
  | num q =>
      refine ⟨fun v hv => ?_, fun h => Option.noConfusion h⟩
      rw [show v = LabelVal.num q from (Option.some.inj hv).symm]
      rfl
  | infFloat => exact ⟨fun v hv => Option.noConfusion hv, fun _ => rfl⟩
  | strv s parsed =>
      cases parsed with
      | none =>
          refine ⟨fun v hv => ?_, fun h => Option.noConfusion h⟩
          rw [show v = LabelVal.strv s none from (Option.some.inj hv).symm]
          rfl
      | some o =>
          cases o with
          | nan =>
              refine ⟨fun v hv => ?_, fun h => Option.noConfusion h⟩
              rw [show v = LabelVal.strv s (some .nan) from (Option.some.inj hv).symm]
              rfl
          | infinite => exact ⟨fun v hv => Option.noConfusion hv, fun _ => rfl⟩
          | finite q =>
              refine ⟨fun v hv => ?_, fun h => Option.noConfusion h⟩
              rw [show v = LabelVal.strv s (some (.finite q)) from (Option.some.inj hv).symm]
              rfl
  | obj =>
      refine ⟨fun v hv => ?_, fun h => Option.noConfusion h⟩
      rw [show v = LabelVal.obj from (Option.some.inj hv).symm]
      rfl

/-- Raw preserved-set membership: a raw cell admits a completed-pass
value cleaning to 0 or 1 exactly when the raw cleaning returns 0 or 1
without raising. -/
theorem labelPreservedRaw_iff (c : RawLabelCell) :
    (∃ v, toLabelVal c = some v ∧ labelPreserved v = true) ↔
      (clean_label c = .ok (some 0) ∨ clean_label c = .ok (some 1)) := by
  cases htv : toLabelVal c with
  | none =>
      have herr := (cleanedLabel_agrees c).2 htv
      constructor
      · rintro ⟨v, hv, _⟩
        exact Option.noConfusion hv
      · rintro (h | h) <;> rw [herr] at h <;> exact Except.noConfusion h
  | some v =>
      have hok := (cleanedLabel_agrees c).1 v htv
      constructor
      · rintro ⟨v2, hv2, hp⟩
        rw [Option.some.inj hv2] at hok
        have hp2 : cleanedLabel v2 = some 0 ∨ cleanedLabel v2 = some 1 := by
          simpa [labelPreserved] using hp
        rcases hp2 with h0 | h0
        · left; rw [hok, h0]
        · right; rw [hok, h0]
      · rintro (h | h)
        · rw [hok] at h
          have h0 := Except.ok.inj h
          exact ⟨v, rfl, by simp [labelPreserved, h0]⟩
        · rw [hok] at h
          have h0 := Except.ok.inj h
          exact ⟨v, rfl, by simp [labelPreserved, h0]⟩

/-- C7 (amended): the pre-pass cleaning coerces every stored
`english_speaker` value by numeric parse followed by truncation toward
zero; a value with no numeric parse (non-numeric, `None`, or NaN) or
whose finite parse truncates outside `{0, 1, -1}` is reset to `None`
(absent), not `-1`; a finite parse truncating into `{0, 1, -1}` is kept
as the truncation; a value parsing to ±infinity is not reset at all —
the step raises an uncaught `OverflowError` and aborts the batch; and
only authors whose cleaned label is 0 or 1 enter the preserved-label
set. -/
theorem clean_label_spec (c : RawLabelCell) :
    (rawNumericValue c = .noParse → clean_label c = .ok none) ∧
      (∀ q : Rat, rawNumericValue c = .finiteParse q →
        ¬(pyTrunc q = 0 ∨ pyTrunc q = 1 ∨ pyTrunc q = -1) →
        clean_label c = .ok none) ∧
      (∀ q : Rat, rawNumericValue c = .finiteParse q →
        (pyTrunc q = 0 ∨ pyTrunc q = 1 ∨ pyTrunc q = -1) →
        clean_label c = .ok (some (pyTrunc q))) ∧
      (rawNumericValue c = .infiniteParse → clean_label c = .error ()) ∧
      ((∃ v, toLabelVal c = some v ∧ labelPreserved v = true) ↔
        (clean_label c = .ok (some 0) ∨ clean_label c = .ok (some 1))) := by
  refine ⟨?_, ?_, ?_, ?_, labelPreservedRaw_iff c⟩
  · intro h
    cases c with
    | null => rfl
    | num q => exact NumericParse.noConfusion h
    | infFloat => exact NumericParse.noConfusion h
    | strv s p =>
        cases p with
        | none => rfl
        | some o =>
            cases o with
            | nan => rfl
            | infinite => exact NumericParse.noConfusion h
            | finite q => exact NumericParse.noConfusion h
    | obj => rfl
  · intro q hq hout
    cases c with
    | null => exact NumericParse.noConfusion hq
    | num q2 =>
        rw [show q2 = q from NumericParse.finiteParse.inj hq]
        simp [clean_label, hout]
    | infFloat => exact NumericParse.noConfusion hq
    | strv s p =>
        cases p with
        | none => exact NumericParse.noConfusion hq
        | some o =>
            cases o with
            | nan => exact NumericParse.noConfusion hq
            | infinite => exact NumericParse.noConfusion hq
            | finite q2 =>
                rw [show q2 = q from NumericParse.finiteParse.inj hq]
                simp [clean_label, hout]
    | obj => exact NumericParse.noConfusion hq
  · intro q hq hin
    cases c with
    | null => exact NumericParse.noConfusion hq
    | num q2 =>
        rw [show q2 = q from NumericParse.finiteParse.inj hq]
        simp [clean_label, hin]
    | infFloat => exact NumericParse.noConfusion hq
    | strv s p =>
        cases p with
        | none => exact NumericParse.noConfusion hq
        | some o =>
            cases o with
            | nan => exact NumericParse.noConfusion hq
            | infinite => exact NumericParse.noConfusion hq
            | finite q2 =>
                rw [show q2 = q from NumericParse.finiteParse.inj hq]
                simp [clean_label, hin]
    | obj => exact NumericParse.noConfusion hq
  · intro h
    cases c with
    | null => exact NumericParse.noConfusion h
    | num q => exact NumericParse.noConfusion h
    | infFloat => rfl
    | strv s p =>
        cases p with
        | none => exact NumericParse.noConfusion h
        | some o =>
            cases o with
            | nan => exact NumericParse.noConfusion h
            | infinite => rfl
            | finite q => exact NumericParse.noConfusion h
    | obj => exact NumericParse.noConfusion h

/-- Witness for C7 (amended): the stored string `"2"` (finite parse,
truncation outside the valid set) is reset to absent, the stored
numeric 1 is kept, and a stored string parsing to ±infinity raises. -/
theorem clean_label_spec_witness :
    clean_label (.strv "2" (some (.finite 2))) = .ok none ∧
      clean_label (.num 1) = .ok (some 1) ∧
      clean_label (.strv "1e999" (some .infinite)) = .error () :=
  ⟨(clean_label_spec (.strv "2" (some (.finite 2)))).2.1 2 rfl (by decide),
   (clean_label_spec (.num 1)).2.2.1 1 rfl (by decide),
   (clean_label_spec (.strv "1e999" (some .infinite))).2.2.2.1 rfl⟩

/-! ## Claim C6: the TOEFL exemption upgrade rule -/

/-- The flag loop only produces 0 or 1. -/
theorem computeFlagLoop_zero_or_one (ud : UnivData) (toefl : List (String × String))
    (codes : List String) :
    computeFlagLoop ud toefl codes = 0 ∨ computeFlagLoop ud toefl codes = 1 := by
  induction codes with
  | nil => exact Or.inl rfl
  | cons c rest ih =>
      simp only [computeFlagLoop]
      split
      · exact Or.inr rfl
      · exact ih

/-- The per-code test of the flag loop, spelled out: it succeeds exactly
when the code has a display-name mapping, the name is nonempty, and the
lowercased name has the TOEFL entry `"Exempt"`. -/
theorem flagCond_iff (ud : UnivData) (toefl : List (String × String)) (c : String) :
    (((ud.code_to_country_name.lookup c).getD "" ≠ "") &&
        ((toefl.lookup (pyLower ((ud.code_to_country_name.lookup c).getD ""))).getD "" =
          "Exempt")) = true ↔
      ∃ name, ud.code_to_country_name.lookup c = some name ∧ name ≠ "" ∧
        toefl.lookup (pyLower name) = some "Exempt" := by
  cases hl : ud.code_to_country_name.lookup c with
  | none => simp
  | some name =>
      cases ht : toefl.lookup (pyLower name) with
      | none => simp [ht]
      | some req =>
          by_cases hr : req = "Exempt"
          · subst hr
            by_cases hn : name = ""
            · subst hn; simp [ht]
            · simp [ht, hn]
          · simp [ht, hr]

/-- The flag loop returns 1 exactly when some code in the list passes
the per-code TOEFL test. -/
theorem computeFlagLoop_eq_one_iff (ud : UnivData) (toefl : List (String × String))
    (codes : List String) :
    computeFlagLoop ud toefl codes = 1 ↔
      ∃ c ∈ codes, ∃ name, ud.code_to_country_name.lookup c = some name ∧ name ≠ "" ∧
        toefl.lookup (pyLower name) = some "Exempt" := by
  induction codes with
  | nil => simp [computeFlagLoop]
  | cons c rest ih =>
      simp only [computeFlagLoop]
      by_cases hcond :
          (((ud.code_to_country_name.lookup c).getD "" ≠ "") &&
            ((toefl.lookup (pyLower ((ud.code_to_country_name.lookup c).getD ""))).getD "" =
              "Exempt")) = true
      · rw [if_pos hcond]
        exact ⟨fun _ => ⟨c, List.mem_cons_self c rest, (flagCond_iff ud toefl c).mp hcond⟩,
          fun _ => rfl⟩
      · rw [if_neg hcond, ih]
        constructor
        · rintro ⟨x, hx, htriple⟩
          exact ⟨x, List.mem_cons_of_mem c hx, htriple⟩
        · rintro ⟨x, hx, htriple⟩
          rcases List.mem_cons.mp hx with hx | hx
          · subst hx
            exact absurd ((flagCond_iff ud toefl x).mpr htriple) hcond
          · exact ⟨x, hx, htriple⟩

/-- C6: for a record with a non-empty resolved country set and no
preserved label, the label is 1 exactly when some resolved code maps via
the code-to-display-name table to a nonempty name whose lowercased TOEFL
entry is exactly `"Exempt"`; otherwise it is 0.  A code with no
display-name mapping, or a name with no TOEFL entry, never yields 1. -/
theorem english_flag_toefl_rule (ud : UnivData) (toefl : List (String × String)) (r : Row)
    (h : resolvedCodes ud r ≠ []) :
    ((processRow ud toefl false r).2 = 1 ↔
      ∃ c ∈ resolvedCodes ud r, ∃ name,
        ud.code_to_country_name.lookup c = some name ∧ name ≠ "" ∧
        toefl.lookup (pyLower name) = some "Exempt") ∧
      ((processRow ud toefl false r).2 = 0 ∨ (processRow ud toefl false r).2 = 1) := by
  have hne : ¬((preMergeCodes ud r).isEmpty &&
      (parseCurrentCountry r.current_country).isNone) = true := by
    intro hcond
    have h1 : preMergeCodes ud r = [] := List.isEmpty_iff.mp (Bool.and_elim_left hcond)
    have h2 := Bool.and_elim_right hcond
    have hres : resolvedCodes ud r = [] := by
      unfold resolvedCodes
      cases hp : parseCurrentCountry r.current_country with
      | some c => rw [hp] at h2; simp at h2
      | none => exact h1
    exact h hres
  have hne2 : ¬(resolvedCodes ud r).isEmpty = true := fun hcond =>
    h (List.isEmpty_iff.mp hcond)
  have hflag : (processRow ud toefl false r).2 =
      computeFlagLoop ud toefl (resolvedCodes ud r) := by
    show (computePath ud toefl r).2 = _
    unfold computePath
    rw [if_neg hne, if_neg hne2]
  rw [hflag]
  exact ⟨computeFlagLoop_eq_one_iff ud toefl _, computeFlagLoop_zero_or_one ud toefl _⟩

/-- Reference data with one code-to-name entry, for the C6 witness. -/
def udWitness : UnivData := ⟨[], [], [("US", "United States")]⟩

/-- TOEFL table with one exempt country, for the C6 witness. -/
def toeflWitness : List (String × String) := [("united states", "Exempt")]

/-- A row resolving to the single country `US`, for the C6 witness. -/
def rowWitness : Row := ⟨"w6", .null, none, [], [], some "US"⟩

/-- Witness for C6: the resolved set `{US}` with `US → United States →
Exempt` produces label 1. -/
theorem english_flag_toefl_rule_witness :
    (processRow udWitness toeflWitness false rowWitness).2 = 1 :=
  (english_flag_toefl_rule udWitness toeflWitness rowWitness (by decide)).1.mpr
    ⟨"US", by decide, "United States", by decide, by decide, by decide⟩

/-! ## Claim C3: preserved labels and self-healing -/

/-- A stored row whose country cell is the whitespace-only string `" "`. -/
def rowBlankCountries : Row := ⟨"c3", .num 1, some " ", [], [], none⟩

/-- Counterexample for C3 as stated: the stored country value `" "` is
non-empty, is not the string `'nan'` or `'None'`, and does not start
with a left brace, yet a later pass does not leave the stored valid
label 1 and the stored country value in place — it resets the row to
`(none, -1)`, because the source applies the placeholder checks to the
whitespace-stripped value. -/
theorem preserved_frame_cex :
    cleanedLabel rowBlankCountries.english_speaker = some 1 ∧
      rowBlankCountries.education_countries = some " " ∧
      (" " ≠ "" ∧ " " ≠ "nan" ∧ " " ≠ "None" ∧ pyStartsWith " " "\x7b" = false) ∧
      processRow udEmpty [] true rowBlankCountries = (none, -1) := by
  refine ⟨by decide, rfl, by decide, by decide⟩

/-- C3 (amended): for every author whose stored label cleans to 0 or 1:
if the *whitespace-stripped* stored country value is non-empty, not
`'nan'`, not `'None'`, and does not start with a left brace
(`hasCountryData`), a later pass leaves both the label and the country
field exactly as stored, independently of the reference data and of the
author's signals (no country resolution is performed); otherwise the
pass forces the label to -1 and the country field to absent. -/
theorem preserved_label_frame (r : Row) (v : Int)
    (hlab : cleanedLabel r.english_speaker = some v) (hv : v = 0 ∨ v = 1) :
    (hasCountryData r.education_countries = true →
      ∀ (ud ud2 : UnivData) (toefl toefl2 : List (String × String))
        (insts doms : List String) (cc : Option String),
        processRow ud toefl true r = (r.education_countries, v) ∧
        processRow ud2 toefl2 true
            { r with institutions := insts, email_domains := doms, current_country := cc } =
          (r.education_countries, v)) ∧
    (hasCountryData r.education_countries = false →
      ∀ (ud : UnivData) (toefl : List (String × String)),
        processRow ud toefl true r = (none, -1)) := by
  have hreval : revalidatedLabel r.english_speaker = v := by
    have hcond : v = 0 ∨ v = 1 ∨ v = -1 := by
      rcases hv with h | h
      · exact Or.inl h
      · exact Or.inr (Or.inl h)
    unfold revalidatedLabel
    rw [hlab]
    show (if v = 0 ∨ v = 1 ∨ v = -1 then v else -1) = v
    rw [if_pos hcond]
  constructor
  · intro hcd ud ud2 toefl toefl2 insts doms cc
    have hpath : ∀ (ud' : UnivData) (toefl' : List (String × String)),
        processRow ud' toefl' true r = (r.education_countries, v) := by
      intro ud' toefl'
      show preservedPath r = _
      unfold preservedPath
      rw [if_pos hcd, hreval]
    exact ⟨hpath ud toefl, hpath ud2 toefl2⟩
  · intro hcd ud toefl
    show preservedPath r = _
    unfold preservedPath
    rw [if_neg (by simp [hcd])]

/-- A stored row with a valid label and a clean country cell, plus some
signals that must be ignored. -/
def rowFrameWitness : Row := ⟨"w3", .num 1, some "US", ["massachusetts"], ["a.cn"], some "FR"⟩

/-- Witness for C3 (amended): the stored pair survives a later pass
unchanged, under any reference data and signals. -/
theorem preserved_label_frame_witness :
    processRow udEmpty [] true rowFrameWitness = (some "US", 1) ∧
      processRow udWitness toeflWitness true
          { rowFrameWitness with
            institutions := [],
            email_domains := [],
            current_country := none } = (some "US", 1) :=
  (preserved_label_frame rowFrameWitness 1 (by decide) (Or.inr rfl)).1 (by decide)
    udEmpty udWitness [] toeflWitness [] [] none

/-! ## Batch-pass structure lemmas (for C1 and C2) -/

/-- `hasCountryData` succeeds only on a present cell with nonempty
stripped content. -/
theorem hasCountryData_elim {o : Option String} (h : hasCountryData o = true) :
    ∃ s, o = some s ∧ pyStrip s ≠ "" := by
  cases o with
  | none => simp [hasCountryData] at h
  | some s =>
      refine ⟨s, rfl, ?_⟩
      simp only [hasCountryData, Bool.and_eq_true, decide_eq_true_eq] at h
      exact h.1.1.1

/-- A cell with nonempty stripped content is not masked by
`no_country_mask`. -/
theorem noCountry_false {s : String} (h : pyStrip s ≠ "") : noCountry (some s) = false := by
  have hs : ¬s = "" := fun he => h (by rw [he]; rfl)
  simp [noCountry, hs, h]

/-- The preserved-label test, spelled out on the cleaned value. -/
theorem labelPreserved_iff (v : LabelVal) :
    labelPreserved v = true ↔ (cleanedLabel v = some 0 ∨ cleanedLabel v = some 1) := by
  simp [labelPreserved]

/-- A preserved label re-validates to itself: 0 or 1. -/
theorem revalidatedLabel_preserved {v : LabelVal} (h : labelPreserved v = true) :
    revalidatedLabel v = 0 ∨ revalidatedLabel v = 1 := by
  rcases (labelPreserved_iff v).mp h with h0 | h0
  · left
    unfold revalidatedLabel
    rw [h0]
    show (if (0 : Int) = 0 ∨ (0 : Int) = 1 ∨ (0 : Int) = -1 then (0 : Int) else -1) = 0
    rw [if_pos (Or.inl rfl)]
  · right
    unfold revalidatedLabel
    rw [h0]
    show (if (1 : Int) = 0 ∨ (1 : Int) = 1 ∨ (1 : Int) = -1 then (1 : Int) else -1) = 1
    rw [if_pos (Or.inr (Or.inl rfl))]

/-- The computed path returns `(none, -1)` or a present country string
paired with the flag-loop value. -/
theorem computePath_shape (ud : UnivData) (toefl : List (String × String)) (r : Row) :
    computePath ud toefl r = (none, -1) ∨
      ∃ s, computePath ud toefl r =
        (some s, computeFlagLoop ud toefl (resolvedCodes ud r)) := by
  unfold computePath
  split
  · exact Or.inl rfl
  · split
    · exact Or.inl rfl
    · exact Or.inr ⟨_, rfl⟩

/-- Every per-row output is sweep-ready: an absent country cell comes
with label -1, and a masked (absent or blank) cell comes either as the
pair `(none, -1)` or with a computed label 0 or 1. -/
theorem processRow_shape (ud : UnivData) (toefl : List (String × String)) (pres : Bool)
    (r : Row) :
    ((processRow ud toefl pres r).1 = none → processRow ud toefl pres r = (none, -1)) ∧
      (noCountry (processRow ud toefl pres r).1 = true →
        processRow ud toefl pres r = (none, -1) ∨
          ((processRow ud toefl pres r).2 = 0 ∨ (processRow ud toefl pres r).2 = 1)) := by
  cases pres with
  | false =>
      rcases computePath_shape ud toefl r with h | ⟨s, h⟩
      · rw [show processRow ud toefl false r = computePath ud toefl r from rfl, h]
        exact ⟨fun _ => rfl, fun _ => Or.inl rfl⟩
      · rw [show processRow ud toefl false r = computePath ud toefl r from rfl, h]
        exact ⟨fun hc => Option.noConfusion hc,
          fun _ => Or.inr (computeFlagLoop_zero_or_one ud toefl _)⟩
  | true =>
      by_cases hcd : hasCountryData r.education_countries = true
      · rcases hasCountryData_elim hcd with ⟨s, hs, hstrip⟩
        have hpath : processRow ud toefl true r =
            (r.education_countries, revalidatedLabel r.english_speaker) := by
          show preservedPath r = _
          unfold preservedPath
          rw [if_pos hcd]
        rw [hpath, hs]
        refine ⟨fun hc => Option.noConfusion hc, fun hnc => ?_⟩
        have hnc2 : noCountry (some s) = true := hnc
        rw [noCountry_false hstrip] at hnc2
        exact Bool.noConfusion hnc2
      · have hpath : processRow ud toefl true r = (none, -1) := by
          show preservedPath r = _
          unfold preservedPath
          rw [if_neg hcd]
        rw [hpath]
        exact ⟨fun _ => rfl, fun _ => Or.inl rfl⟩

/-- Pointwise mapping of a function that fixes every element. -/
theorem map_eq_self_of {α : Type} {f : α → α} {l : List α} (h : ∀ a ∈ l, f a = a) :
    l.map f = l := by
  induction l with
  | nil => rfl
  | cons a t ih =>
      simp only [List.map_cons, h a (List.mem_cons_self a t),
        ih fun x hx => h x (List.mem_cons_of_mem a hx)]

/-- On sweep-ready outputs, the conditional final sweep acts exactly as
the unconditional pointwise repair. -/
theorem finalSweep_eq_map {l : List (Option String × Int)}
    (h : ∀ p ∈ l, noCountry p.1 = true → p = (none, -1) ∨ (p.2 = 0 ∨ p.2 = 1)) :
    finalSweep l = l.map sweepFix := by
  unfold finalSweep
  split
  · rfl
  · next hcnt =>
      have hz : l.countP (fun p => noCountry p.1 && p.2 != -1) = 0 := by omega
      have hall := List.countP_eq_zero.mp hz
      refine (map_eq_self_of fun p hp => ?_).symm
      by_cases hnc : noCountry p.1 = true
      · have hne := hall p hp
        simp only [hnc, Bool.true_and, bne_iff_ne, ne_eq, not_not] at hne
        rcases h p hp hnc with hfix | hfix
        · rw [hfix]; rfl
        · rcases hfix with h0 | h0 <;> rw [h0] at hne <;> exact absurd hne (by decide)
      · unfold sweepFix
        rw [if_neg hnc]

/-- Under distinct author names, a row's membership in
`authors_with_labels` coincides with its own preserved-label test. -/
theorem contains_authorsWithLabels {rows : List Row}
    (hnd : (rows.map Row.author_name).Nodup) {r : Row} (hr : r ∈ rows) :
    (authorsWithLabels rows).contains r.author_name = labelPreserved r.english_speaker := by
  cases hlp : labelPreserved r.english_speaker with
  | true =>
      have hmem : r.author_name ∈ authorsWithLabels rows := by
        unfold authorsWithLabels
        exact List.mem_map_of_mem Row.author_name (List.mem_filter.mpr ⟨hr, hlp⟩)
      exact List.elem_iff.mpr hmem
  | false =>
      cases hc : (authorsWithLabels rows).contains r.author_name with
      | false => rfl
      | true =>
          exfalso
          have hmem := List.elem_iff.mp hc
          unfold authorsWithLabels at hmem
          rcases List.mem_map.mp hmem with ⟨r2, hr2mem, hname⟩
          have hr2 := List.mem_filter.mp hr2mem
          have heq : r2 = r := List.inj_on_of_nodup_map hnd hr2.1 hr hname
          rw [heq] at hr2
          rw [hr2.2] at hlp
          exact Bool.noConfusion hlp

/-- Under distinct author names, the batch pass acts pointwise: each row
is processed with its own preserved-label flag and then repaired. -/
theorem processBatch_eq_map (ud : UnivData) (toefl : List (String × String))
    (rows : List Row) (hnd : (rows.map Row.author_name).Nodup) :
    processBatch ud toefl rows =
      rows.map fun r =>
        sweepFix (processRow ud toefl (labelPreserved r.english_speaker) r) := by
  unfold processBatch
  have hmap : (rows.map fun r =>
      processRow ud toefl ((authorsWithLabels rows).contains r.author_name) r) =
      rows.map fun r => processRow ud toefl (labelPreserved r.english_speaker) r :=
    List.map_congr_left fun r hr => by rw [contains_authorsWithLabels hnd hr]
  rw [hmap]
  rw [finalSweep_eq_map ?sweepready]
  case sweepready =>
    intro p hp
    rcases List.mem_map.mp hp with ⟨r, hr, hpr⟩
    rw [← hpr]
    exact (processRow_shape ud toefl (labelPreserved r.english_speaker) r).2
  rw [List.map_map]
  rfl

/-- A per-row output with a present country cell carries label 0 or 1
when the row's preserved flag agrees with its own label test. -/
theorem processRow_some_label {ud : UnivData} {toefl : List (String × String)} {r : Row}
    {s : String}
    (hq : (processRow ud toefl (labelPreserved r.english_speaker) r).1 = some s) :
    (processRow ud toefl (labelPreserved r.english_speaker) r).2 = 0 ∨
      (processRow ud toefl (labelPreserved r.english_speaker) r).2 = 1 := by
  cases hlp : labelPreserved r.english_speaker with
  | false =>
      rw [hlp] at hq
      rcases computePath_shape ud toefl r with h | ⟨s2, h⟩
      · rw [show processRow ud toefl false r = computePath ud toefl r from rfl, h] at hq
        exact absurd hq (by simp)
      · rw [show processRow ud toefl false r = computePath ud toefl r from rfl, h]
        exact computeFlagLoop_zero_or_one ud toefl _
  | true =>
      rw [hlp] at hq
      by_cases hcd : hasCountryData r.education_countries = true
      · have hpath : processRow ud toefl true r =
            (r.education_countries, revalidatedLabel r.english_speaker) := by
          show preservedPath r = _
          unfold preservedPath
          rw [if_pos hcd]
        rw [hpath]
        exact revalidatedLabel_preserved hlp
      · have hpath : processRow ud toefl true r = (none, -1) := by
          show preservedPath r = _
          unfold preservedPath
          rw [if_neg hcd]
        rw [hpath] at hq
        exact absurd hq (by simp)

/-! ## Claim C1: invariant I1 after one full batch pass -/

/-- C1: after one full batch pass of the label-assignment engine over
author rows with distinct names (the data model's `authorName` key is
unique per record), every output record has label -1 exactly when its
country field is absent or blank; this covers freshly computed rows and
rows carrying pre-existing labels or country data from a prior run. -/
theorem batch_invariant_I1 (ud : UnivData) (toefl : List (String × String)) (rows : List Row)
    (hnd : (rows.map Row.author_name).Nodup) :
    ∀ p ∈ processBatch ud toefl rows,
      (p.2 = -1 ↔ (p.1 = none ∨ ∃ s, p.1 = some s ∧ pyStrip s = "")) := by
  intro p hp
  rw [processBatch_eq_map ud toefl rows hnd] at hp
  rcases List.mem_map.mp hp with ⟨r, hr, hpr⟩
  by_cases hnc : noCountry (processRow ud toefl (labelPreserved r.english_speaker) r).1 = true
  · have hfix : p = (none, -1) := by
      rw [← hpr]
      unfold sweepFix
      rw [if_pos hnc]
    rw [hfix]
    simp
  · have hfix : p = processRow ud toefl (labelPreserved r.english_speaker) r := by
      rw [← hpr]
      unfold sweepFix
      rw [if_neg hnc]
    cases hq1 : (processRow ud toefl (labelPreserved r.english_speaker) r).1 with
    | none => rw [hq1] at hnc; exact absurd rfl hnc
    | some s =>
        have hlab := processRow_some_label hq1
        constructor
        · intro hm1
          rw [hfix] at hm1
          rcases hlab with h0 | h0 <;> rw [h0] at hm1 <;> exact absurd hm1 (by decide)
        · intro hrhs
          exfalso
          rw [hfix, hq1] at hrhs
          rcases hrhs with h0 | ⟨s2, hs2, hstrip⟩
          · exact Option.noConfusion h0
          · have hss : s2 = s := (Option.some.inj hs2).symm
            rw [hss] at hstrip
            rw [hq1] at hnc
            exact hnc (by simp [noCountry, hstrip])

/-- A one-row batch with no signals at all, for the C1 witness. -/
def rowsI1Witness : List Row := [⟨"w1", .null, none, [], [], none⟩]

/-- Witness for C1 on a concrete batch: the single output row is
`(none, -1)` and satisfies the invariant. -/
theorem batch_invariant_I1_witness :
    ((none : Option String), (-1 : Int)).2 = -1 ↔
      (((none : Option String), (-1 : Int)).1 = none ∨
        ∃ s, ((none : Option String), (-1 : Int)).1 = some s ∧ pyStrip s = "") :=
  batch_invariant_I1 udEmpty [] rowsI1Witness (by decide) (none, -1) (by decide)

/-! ## Claim C2: idempotence of the engine on its own output -/

/-- Reference data with one institution mapping, for the C2
counterexample. -/
def udHealCex : UnivData := ⟨[], [("zzzz", "CN")], []⟩

/-- A label-free row whose self-reported country starts with a left
brace. -/
def rowBraceCex : Row := ⟨"a", .null, none, [], [], some "\x7bx"⟩

/-- A row with stored valid label 1 backed by the placeholder `'nan'`,
and a live institution signal. -/
def rowHealCex : Row := ⟨"b", .num 1, some "nan", ["zzzz"], [], none⟩

/-- Counterexample for C2 as stated: in the first run, row `a` receives
the valid label 0 backed by the country string starting with a left
brace (taken verbatim from `current_country`), and row `b` is
self-healed to `(none, -1)`.  The second run on that output changes
both rows: row `a`'s stored country string fails the placeholder check
and is reset to `(none, -1)`, and row `b` — no longer carrying a valid
label — is recomputed from its signals to `(some CN, 0)`.  Neither of
the two consecutive outputs equals the other, so a second run is not a
no-op on records holding a valid label with its backing country field. -/
theorem rerun_changes_output :
    processBatch udHealCex [] [rowBraceCex, rowHealCex] =
        [(some "\x7bx", 0), (none, -1)] ∧
      processBatch udHealCex []
          (List.zipWith rerunRow [rowBraceCex, rowHealCex]
            (processBatch udHealCex [] [rowBraceCex, rowHealCex])) =
        [(none, -1), (some "CN", 0)] :=
  ⟨by decide, by decide⟩

/-- Output labels written back as numeric cells clean to themselves. -/
theorem labelPreserved_cast0 : labelPreserved (.num ((0 : Int) : Rat)) = true := by decide

theorem labelPreserved_cast1 : labelPreserved (.num ((1 : Int) : Rat)) = true := by decide

theorem labelPreserved_castm1 : labelPreserved (.num ((-1 : Int) : Rat)) = false := by decide

theorem revalidated_cast0 : revalidatedLabel (.num ((0 : Int) : Rat)) = 0 := by decide

theorem revalidated_cast1 : revalidatedLabel (.num ((1 : Int) : Rat)) = 1 := by decide

/-- The computed path reads only the signal fields, which `rerunRow`
does not touch. -/
theorem computePath_rerun (ud : UnivData) (toefl : List (String × String)) (r : Row)
    (o : Option String × Int) :
    computePath ud toefl (rerunRow r o) = computePath ud toefl r := rfl

/-- The repair fixes masked pairs to `(none, -1)`. -/
theorem sweepFix_noCountry {p : Option String × Int} (h : noCountry p.1 = true) :
    sweepFix p = (none, -1) := by
  unfold sweepFix
  rw [if_pos h]

/-- The repair leaves unmasked pairs alone. -/
theorem sweepFix_some {s : String} {i : Int} (h : noCountry (some s) = false) :
    sweepFix (some s, i) = (some s, i) := by
  show (if noCountry (some s) = true then ((none : Option String), (-1 : Int))
      else (some s, i)) = (some s, i)
  rw [h]
  exact if_neg (by decide)

/-- Re-processing one row fed back from its swept output reproduces that
output, provided a preserved row was not self-healed and an output
carrying a valid label passes the placeholder check. -/
theorem rerun_row_stable (ud : UnivData) (toefl : List (String × String)) (r : Row)
    (q : Option String × Int)
    (hq : q = sweepFix (processRow ud toefl (labelPreserved r.english_speaker) r))
    (hheal : labelPreserved r.english_speaker = true →
      hasCountryData r.education_countries = true)
    (hclean : (q.2 = 0 ∨ q.2 = 1) → hasCountryData q.1 = true) :
    sweepFix (processRow ud toefl (labelPreserved (rerunRow r q).english_speaker)
        (rerunRow r q)) = q := by
  cases hlp : labelPreserved r.english_speaker with
  | true =>
      have hcd := hheal hlp
      rcases hasCountryData_elim hcd with ⟨s, hs, hstrip⟩
      have hcds : hasCountryData (some s) = true := by rw [← hs]; exact hcd
      have hncs : noCountry (some s) = false := noCountry_false hstrip
      have hrow : processRow ud toefl true r =
          (some s, revalidatedLabel r.english_speaker) := by
        show preservedPath r = _
        unfold preservedPath
        rw [if_pos hcd, hs]
      have hqval : q = (some s, revalidatedLabel r.english_speaker) := by
        rw [hq, hlp, hrow, sweepFix_some hncs]
      rcases revalidatedLabel_preserved hlp with hv | hv
      · rw [hqval, hv]
        have hlp2 : labelPreserved
            (rerunRow r ((some s : Option String), (0 : Int))).english_speaker = true :=
          labelPreserved_cast0
        rw [hlp2]
        have hrow2 : processRow ud toefl true
            (rerunRow r ((some s : Option String), (0 : Int))) = (some s, (0 : Int)) := by
          show preservedPath _ = _
          unfold preservedPath
          rw [if_pos (show hasCountryData
            (rerunRow r ((some s : Option String), (0 : Int))).education_countries = true
            from hcds)]
          show ((some s : Option String), revalidatedLabel (.num ((0 : Int) : Rat))) =
            (some s, 0)
          rw [revalidated_cast0]
        rw [hrow2]
        exact sweepFix_some hncs
      · rw [hqval, hv]
        have hlp2 : labelPreserved
            (rerunRow r ((some s : Option String), (1 : Int))).english_speaker = true :=
          labelPreserved_cast1
        rw [hlp2]
        have hrow2 : processRow ud toefl true
            (rerunRow r ((some s : Option String), (1 : Int))) = (some s, (1 : Int)) := by
          show preservedPath _ = _
          unfold preservedPath
          rw [if_pos (show hasCountryData
            (rerunRow r ((some s : Option String), (1 : Int))).education_countries = true
            from hcds)]
          show ((some s : Option String), revalidatedLabel (.num ((1 : Int) : Rat))) =
            (some s, 1)
          rw [revalidated_cast1]
        rw [hrow2]
        exact sweepFix_some hncs
  | false =>
      rcases computePath_shape ud toefl r with hcp | ⟨j, hcp⟩
      · have hqval : q = (none, -1) := by
          rw [hq, hlp, show processRow ud toefl false r = computePath ud toefl r from rfl,
            hcp]
          rfl
        rw [hqval]
        have hlp2 : labelPreserved
            (rerunRow r ((none : Option String), (-1 : Int))).english_speaker = false :=
          labelPreserved_castm1
        rw [hlp2]
        have hrow2 : processRow ud toefl false
            (rerunRow r ((none : Option String), (-1 : Int))) = (none, -1) := by
          show computePath ud toefl _ = _
          rw [computePath_rerun, hcp]
        rw [hrow2]
        rfl
      · by_cases hnc : noCountry (some j) = true
        · have hqval : q = (none, -1) := by
            rw [hq, hlp, show processRow ud toefl false r = computePath ud toefl r from rfl,
              hcp]
            exact sweepFix_noCountry hnc
          rw [hqval]
          have hlp2 : labelPreserved
              (rerunRow r ((none : Option String), (-1 : Int))).english_speaker = false :=
            labelPreserved_castm1
          rw [hlp2]
          have hrow2 : processRow ud toefl false
              (rerunRow r ((none : Option String), (-1 : Int))) =
              (some j, computeFlagLoop ud toefl (resolvedCodes ud r)) := by
            show computePath ud toefl _ = _
            rw [computePath_rerun, hcp]
          rw [hrow2]
          exact sweepFix_noCountry hnc
        · have hncf : noCountry (some j) = false := by
            cases h2 : noCountry (some j) with
            | false => rfl
            | true => exact absurd h2 hnc
          have hqval : q = (some j, computeFlagLoop ud toefl (resolvedCodes ud r)) := by
            rw [hq, hlp, show processRow ud toefl false r = computePath ud toefl r from rfl,
              hcp]
            exact sweepFix_some hncf
          have hflag := computeFlagLoop_zero_or_one ud toefl (resolvedCodes ud r)
          have harg : q.2 = 0 ∨ q.2 = 1 := by
            rw [hqval]
            exact hflag
          have hcdj0 := hclean harg
          rw [hqval] at hcdj0
          have hcdj : hasCountryData (some j) = true := hcdj0
          rcases hflag with hf | hf
          · rw [hqval, hf]
            have hlp2 : labelPreserved
                (rerunRow r ((some j : Option String), (0 : Int))).english_speaker = true :=
              labelPreserved_cast0
            rw [hlp2]
            have hrow2 : processRow ud toefl true
                (rerunRow r ((some j : Option String), (0 : Int))) = (some j, (0 : Int)) := by
              show preservedPath _ = _
              unfold preservedPath
              rw [if_pos (show hasCountryData
                (rerunRow r ((some j : Option String), (0 : Int))).education_countries = true
                from hcdj)]
              show ((some j : Option String), revalidatedLabel (.num ((0 : Int) : Rat))) =
                (some j, 0)
              rw [revalidated_cast0]
            rw [hrow2]
            exact sweepFix_some hncf
          · rw [hqval, hf]
            have hlp2 : labelPreserved
                (rerunRow r ((some j : Option String), (1 : Int))).english_speaker = true :=
              labelPreserved_cast1
            rw [hlp2]
            have hrow2 : processRow ud toefl true
                (rerunRow r ((some j : Option String), (1 : Int))) = (some j, (1 : Int)) := by
              show preservedPath _ = _
              unfold preservedPath
              rw [if_pos (show hasCountryData
                (rerunRow r ((some j : Option String), (1 : Int))).education_countries = true
                from hcdj)]
              show ((some j : Option String), revalidatedLabel (.num ((1 : Int) : Rat))) =
                (some j, 1)
              rw [revalidated_cast1]
            rw [hrow2]
            exact sweepFix_some hncf

/-- Zipping a list with its own image acts pointwise. -/
theorem zipWith_map_self {α β γ : Type} (f : α → β → γ) (g : α → β) (l : List α) :
    List.zipWith f l (l.map g) = l.map fun a => f a (g a) := by
  induction l with
  | nil => rfl
  | cons a t ih => simp [ih]

/-- C2 (amended): over rows with distinct author names, feeding the
engine's own output back changes nothing, provided (a) every row whose
stored label is already valid carries country data passing the
placeholder check (no self-healing occurs in the first run), and
(b) every first-run output holding a valid label has a country string
passing the placeholder check (in particular it does not start with a
left brace and is not the literal `'nan'`/`'None'`).  Under those side
conditions the second run reproduces the first run exactly, so two
consecutive runs equal one; without them a second run can reset a
valid-labelled record (see the counterexample). -/
theorem rerun_stable (ud : UnivData) (toefl : List (String × String)) (rows : List Row)
    (hnd : (rows.map Row.author_name).Nodup)
    (hheal : ∀ r ∈ rows, labelPreserved r.english_speaker = true →
      hasCountryData r.education_countries = true)
    (hclean : ∀ p ∈ processBatch ud toefl rows,
      (p.2 = 0 ∨ p.2 = 1) → hasCountryData p.1 = true) :
    processBatch ud toefl (List.zipWith rerunRow rows (processBatch ud toefl rows)) =
      processBatch ud toefl rows := by
  have hbatch := processBatch_eq_map ud toefl rows hnd
  rw [hbatch, zipWith_map_self]
  have hnd2 : ((rows.map fun r => rerunRow r (sweepFix (processRow ud toefl
      (labelPreserved r.english_speaker) r))).map Row.author_name).Nodup := by
    rw [List.map_map]
    exact hnd
  rw [processBatch_eq_map ud toefl _ hnd2]
  rw [List.map_map]
  refine List.map_congr_left fun r hr => ?_
  exact rerun_row_stable ud toefl r _ rfl (hheal r hr)
    (fun hv => hclean _ (by rw [hbatch]; exact List.mem_map_of_mem _ hr) hv)

/-- A label-free one-row batch resolving to `{US}`, for the C2 witness. -/
def rowsRerunWitness : List Row := [⟨"w2", .null, none, [], [], some "US"⟩]

/-- Witness for C2 (amended) on a concrete batch satisfying the side
conditions: the second run reproduces the first. -/
theorem rerun_stable_witness :
    processBatch udEmpty []
        (List.zipWith rerunRow rowsRerunWitness (processBatch udEmpty [] rowsRerunWitness)) =
      processBatch udEmpty [] rowsRerunWitness :=
  rerun_stable udEmpty [] rowsRerunWitness (by decide) (by decide) (by decide)
